import Mathlib

/-!
Shallow embedding of the push-notification delivery worker
(`push-service`), covering the message-processing pipeline: the retry
engine with exponential backoff (`src/utils.rs`), template placeholder
substitution (`src/clients/template.rs`), the processor
(`src/utils.rs, process_message`), the idempotency store protocol
(`src/clients/redis.rs`), the circuit breaker
(`src/clients/circuit_breaker.rs`) and the dispatcher's dead-letter
routing (`src/main.rs`, `src/models/message.rs`).

Strings are modelled as `List Char`.  Machine integers (`u32`, `u64`)
are modelled as `Nat`, with an explicit `% 2 ^ 64` at the one place the
source multiplies two `u64` values.  The `f64` jitter arithmetic of the
retry engine is modelled with exact rationals.  Fallible Rust calls
(`Result`) become `Except`/`Option`; a Rust panic is an explicit
constructor of the result type.
-/

namespace PushService

abbrev Str := List Char

/-- The character `\x7b` (left curly brace), used by the `\x7b\x7bvar\x7d\x7d`
placeholder syntax of the template client. -/
def lbr : Char := '\x7b'

/-- The character `\x7d` (right curly brace). -/
def rbr : Char := '\x7d'

/-- JSON values as handled by `serde_json::Value`.  Numbers are modelled
as integers (no claim depends on float payloads); objects keep their
fields as an association list in document order. -/
inductive Json where
  | str (s : Str)
  | num (n : Int)
  | bool (b : Bool)
  | null
  | arr (xs : List Json)
  | obj (fs : List (Str × Json))

/-- First-match association-list lookup, the semantics of a
`HashMap::get` once a concrete iteration/storage order is fixed
(duplicate keys cannot occur in a `HashMap`). -/
def lookupKey (k : Str) : List (Str × Json) → Option Json
  | [] => none
  | (k', v) :: rest => if k' = k then some v else lookupKey k rest

/-! ## Retry engine — `utils.rs`, `retry_with_backoff` -/

/-- `RetryConfig` (`models/retry.rs`; field types pinned by
`Config::retry_config` in `config.rs` and by `tests/retry_tests.rs`):
`max_attempts: u32`, `initial_delay_ms: u64`, `max_delay_ms: u64`,
`backoff_multiplier: u64`. -/
structure RetryConfig where
  max_attempts : Nat
  initial_delay_ms : Nat
  max_delay_ms : Nat
  backoff_multiplier : Nat
deriving DecidableEq

/-- Modulus of `u64` arithmetic. -/
def U64MOD : Nat := 2 ^ 64

/-- `(delay_ms as f64 * (1.0 + jitter)) as u64` — the jittered sleep
duration.  The `as u64` cast truncates toward zero and saturates at
`u64::MAX`; the float product is modelled as an exact rational. -/
def jitteredDelay (delayMs : Nat) (jitter : ℚ) : Nat :=
  min (Int.toNat ⌊(delayMs : ℚ) * (1 + jitter)⌋) (U64MOD - 1)

/-- The loop of `retry_with_backoff`.  `ops n` is the result of the
`n`-th invocation of `operation` (1-based), `jitters n` the jitter
sampled after the `n`-th failed attempt.  Returns the final result, the
number of the last attempt performed (= number of invocations, since
attempts are numbered from 1), and the list of slept delays in order.
`delay_ms * config.backoff_multiplier` is `u64` arithmetic, hence the
`% U64MOD` (release builds wrap; debug builds would panic). -/
def retryGo (ops : Nat → Except ε α) (jitters : Nat → ℚ) (cfg : RetryConfig)
    (attempt delayMs : Nat) : Except ε α × Nat × List Nat :=
  match ops attempt with
  | .ok v => (.ok v, attempt, [])
  | .error e =>
    if _h : cfg.max_attempts ≤ attempt then
      (.error e, attempt, [])
    else
      let slept := jitteredDelay delayMs (jitters attempt)
      let next := min (delayMs * cfg.backoff_multiplier % U64MOD) cfg.max_delay_ms
      let rest := retryGo ops jitters cfg (attempt + 1) next
      (rest.1, rest.2.1, slept :: rest.2.2)
termination_by cfg.max_attempts - attempt
decreasing_by omega

/-- `retry_with_backoff` (`utils.rs:218`): `attempt` starts at 0 and is
incremented at the top of the loop, so the first invocation is attempt
1; `delay_ms` starts at `initial_delay_ms`. -/
def retry_with_backoff (ops : Nat → Except ε α) (jitters : Nat → ℚ)
    (cfg : RetryConfig) : Except ε α × Nat × List Nat :=
  retryGo ops jitters cfg 1 cfg.initial_delay_ms

/-- The base delay before jitter, as evolved by the loop: `dFrom d k` is
the value of `delay_ms` after `k` post-failure updates starting from
`d`. -/
def dFrom (cfg : RetryConfig) (delayMs : Nat) : Nat → Nat
  | 0 => delayMs
  | k + 1 => min (dFrom cfg delayMs k * cfg.backoff_multiplier % U64MOD) cfg.max_delay_ms

/-- `dSeq cfg i` is the base delay slept between attempt `i` and attempt
`i + 1` (1-based). -/
def dSeq (cfg : RetryConfig) (i : Nat) : Nat :=
  dFrom cfg cfg.initial_delay_ms (i - 1)

/-! ## Template rendering — `clients/template.rs` -/

/-- `p.isPrefixOf s` for char lists — Rust `str::starts_with`, used by
pattern matching inside `str::replace`. -/
def isPref : Str → Str → Bool
  | [], _ => true
  | _ :: _, [] => false
  | c :: p, d :: s => c = d && isPref p s

/-- Rust `str::contains` for a literal pattern: some suffix of `s`
starts with `p`. -/
def containsSub (p : Str) : Str → Bool
  | [] => p.isEmpty
  | c :: s => isPref p (c :: s) || containsSub p s

/-- Rust `str::find` for a literal pattern: index of the first
occurrence. -/
def findSub (p : Str) : Str → Option Nat
  | [] => if p.isEmpty then some 0 else none
  | c :: s => if isPref p (c :: s) then some 0 else (findSub p s).map (· + 1)

/-- Rust `str::replace(p, r)`: scan left to right, replace each
(non-overlapping, leftmost-first) occurrence of `p` by `r`; the
replacement text is emitted without being rescanned.  (The source only
calls this with the nonempty pattern `\x7b\x7bkey\x7d\x7d`; the
`p.length ≠ 0` guard keeps the recursion well-founded and is vacuous at
every call site.) -/
def replaceAll (p r : Str) : Str → Str
  | [] => []
  | c :: s =>
    if isPref p (c :: s) && p.length ≠ 0 then
      r ++ replaceAll p r ((c :: s).drop p.length)
    else
      c :: replaceAll p r s
termination_by s => s.length
decreasing_by
  · simp only [List.length_drop, List.length_cons]
    rename_i h
    simp only [Bool.and_eq_true, ne_eq, decide_not, Bool.not_eq_eq_eq_not,
      Bool.not_true, decide_eq_false_iff_not] at h
    omega
  · simp

/-- `format!("\x7b\x7b\x7b\x7b\x7b\x7d\x7d\x7d\x7d\x7d", key)` — the
placeholder `\x7b\x7bkey\x7d\x7d` looked for by `replace_variables`. -/
def placeholderOf (k : Str) : Str :=
  lbr :: lbr :: (k ++ [rbr, rbr])

/-- Stringification of a variable value (`replace_variables`, the
`match value` block): string → raw, number → decimal, bool →
`true`/`false`, null → empty; array/object are unsupported (`none`). -/
def stringifyValue : Json → Option Str
  | .str s => some s
  | .num n => some (toString n).toList
  | .bool b => some (if b then "true".toList else "false".toList)
  | .null => some []
  | .arr _ => none
  | .obj _ => none

/-- A rendering error (`anyhow!` messages carried structurally):
`missingVar s` is `Missing variable in template: s` and
`unsupported k` is `Unsupported variable type for key k`. -/
inductive RenderErr where
  | missingVar (placeholder : Str)
  | unsupported (key : Str)
deriving DecidableEq

/-- Result of `replace_variables`: success, an error return, or a Rust
panic (from `.unwrap()`). -/
inductive RenderRes where
  | ok (s : Str)
  | err (e : RenderErr)
  | panic
deriving DecidableEq

/-- The `for (key, value) in variables` loop of `replace_variables`:
substitute each variable in turn (iteration order made explicit as the
list order), aborting on an unsupported value type. -/
def substLoop : List (Str × Json) → Str → Except RenderErr Str
  | [], acc => .ok acc
  | (k, v) :: vs, acc =>
    match stringifyValue v with
    | none => .error (.unsupported k)
    | some r => substLoop vs (replaceAll (placeholderOf k) r acc)

/-- `TemplateServiceClient::replace_variables` (`template.rs:116`).
After the substitution loop: if the result contains both `\x7b\x7b` and
`\x7d\x7d`, take `start = result.find(lblb).unwrap()` and
`end = result[start..].find(rbrb).unwrap() + start + 2` and fail with
`missingVar result[start..end]`; each `.unwrap()` of a failed find is
a panic.  Otherwise return the result. -/
def replace_variables (template : Str) (vs : List (Str × Json)) : RenderRes :=
  match substLoop vs template with
  | .error e => .err e
  | .ok result =>
    if containsSub [lbr, lbr] result && containsSub [rbr, rbr] result then
      match findSub [lbr, lbr] result with
      | none => .panic
      | some start =>
        match findSub [rbr, rbr] (result.drop start) with
        | none => .panic
        | some e2 => .err (.missingVar ((result.drop start).take (e2 + 2)))
    else
      .ok result

/-- `TemplateContent` (`models/template.rs`). -/
structure TemplateContent where
  title : Str
  body : Str
deriving DecidableEq

/-- Result of `render_template`. -/
inductive RenderTRes where
  | ok (c : TemplateContent)
  | err (e : RenderErr)
  | panic
deriving DecidableEq

/-- `Template` (`models/template.rs`). -/
structure Template where
  id : Str
  code : Str
  template_type : Str
  language : Str
  version : Int
  content : TemplateContent
  «variables» : List Str

/-- `TemplateServiceClient::render_template` (`template.rs:99`): render
the content's title, then its body, propagating the first error (or
panic). -/
def render_template (template : Template) (vs : List (Str × Json)) :
    RenderTRes :=
  match replace_variables template.content.title vs with
  | .panic => .panic
  | .err e => .err e
  | .ok title =>
    match replace_variables template.content.body vs with
    | .panic => .panic
    | .err e => .err e
    | .ok body => .ok ⟨title, body⟩

/-! ### Token decomposition of templates, used to reason about
substitution order (claim C9).  A well-formed template is a sequence of
brace-free literal characters and `\x7b\x7bkey\x7d\x7d` placeholders
with brace-free keys. -/

/-- A template token: a literal character or a placeholder. -/
inductive Tok where
  | lit (c : Char)
  | ph (k : Str)

/-- The characters of one token. -/
def tokStr : Tok → Str
  | .lit c => [c]
  | .ph k => placeholderOf k

/-- The characters of a token sequence. -/
def flattenToks : List Tok → Str
  | [] => []
  | t :: ts => tokStr t ++ flattenToks ts

/-- A string free of both brace characters. -/
def BraceFree (s : Str) : Prop := ∀ c ∈ s, c ≠ lbr ∧ c ≠ rbr

instance (s : Str) : Decidable (BraceFree s) := by
  unfold BraceFree; infer_instance

/-- Well-formedness of one token: literal characters and placeholder
keys are brace-free. -/
def tokWF : Tok → Prop
  | .lit c => c ≠ lbr ∧ c ≠ rbr
  | .ph k => BraceFree k

instance (t : Tok) : Decidable (tokWF t) := by
  cases t <;> (unfold tokWF; infer_instance)

/-- Well-formedness of a token sequence. -/
def WFToks (ts : List Tok) : Prop := ∀ t ∈ ts, tokWF t

instance (ts : List Tok) : Decidable (WFToks ts) := by
  unfold WFToks; infer_instance

/-- Substituting one variable at the token level: the matching
placeholder becomes the literal characters of the replacement. -/
def substTok (k r : Str) : Tok → List Tok
  | .lit c => [.lit c]
  | .ph k' => if k' = k then r.map .lit else [.ph k']

/-- `substTok` mapped over a token sequence. -/
def applyVar (k r : Str) : List Tok → List Tok
  | [] => []
  | t :: ts => substTok k r t ++ applyVar k r ts

/-- The whole substitution loop at the token level (unsupported values
contribute their `getD []` stringification; the lemmas only use this
under the hypothesis that every value stringifies). -/
def applyVars : List (Str × Json) → List Tok → List Tok
  | [], ts => ts
  | (k, v) :: vs, ts => applyVars vs (applyVar k ((stringifyValue v).getD []) ts)

/-- Per-token result of substituting a whole variable list: a
placeholder is resolved by (first-match) lookup, independent of list
order. -/
def tokFinal (vs : List (Str × Json)) : Tok → List Tok
  | .lit c => [.lit c]
  | .ph k =>
    match lookupKey k vs with
    | some v => ((stringifyValue v).getD []).map .lit
    | none => [.ph k]

/-- `tokFinal` mapped over a token sequence. -/
def applyFinal (vs : List (Str × Json)) : List Tok → List Tok
  | [] => []
  | t :: ts => tokFinal vs t ++ applyFinal vs ts

/-! ## Message model and the dispatcher's DLQ routing —
`models/message.rs`, `main.rs` -/

/-- `NotificationMessage` (`models/message.rs`): the eleven fields the
`Deserialize` derive requires.  `variables` and `metadata` are
`HashMap<String, serde_json::Value>`, kept here as association lists. -/
structure NotifMessage where
  notification_id : Str
  idempotency_key : Str
  notification_type : Str
  user_id : Str
  template_code : Str
  «variables» : List (Str × Json)
  request_id : Str
  priority : Int
  metadata : List (Str × Json)
  created_by : Str
  timestamp : Str

/-- `Envelope` (`models/message.rs:27`): the shape
`(pattern, data)` the processor deserializes the broker payload into. -/
structure Envelope where
  pattern : Str
  data : NotifMessage

/-- serde: a JSON string. -/
def jString? : Json → Option Str
  | .str s => some s
  | _ => none

/-- serde: an `i32` field — integral and in range. -/
def jI32? : Json → Option Int
  | .num n => if -(2 ^ 31) ≤ n ∧ n < 2 ^ 31 then some n else none
  | _ => none

/-- serde: a `HashMap<String, Value>` field — any JSON object. -/
def jMap? : Json → Option (List (Str × Json))
  | .obj fs => some fs
  | _ => none

/-- Deserializing a `NotificationMessage` from a JSON document (the
serde derive: every field required by name, unknown fields ignored;
payloads with duplicate keys — which serde rejects — are outside the
model, so first-match lookup is exact). -/
def parseNotificationMessage (j : Json) : Option NotifMessage :=
  match j with
  | .obj fs => do
    let nid ← (lookupKey ("notification_id".toList) fs).bind jString?
    let ik ← (lookupKey ("idempotency_key".toList) fs).bind jString?
    let nt ← (lookupKey ("notification_type".toList) fs).bind jString?
    let uid ← (lookupKey ("user_id".toList) fs).bind jString?
    let tc ← (lookupKey ("template_code".toList) fs).bind jString?
    let vars ← (lookupKey ("variables".toList) fs).bind jMap?
    let rid ← (lookupKey ("request_id".toList) fs).bind jString?
    let pr ← (lookupKey ("priority".toList) fs).bind jI32?
    let md ← (lookupKey ("metadata".toList) fs).bind jMap?
    let cb ← (lookupKey ("created_by".toList) fs).bind jString?
    let ts ← (lookupKey ("timestamp".toList) fs).bind jString?
    pure ⟨nid, ik, nt, uid, tc, vars, rid, pr, md, cb, ts⟩
  | _ => none

/-- Deserializing an `Envelope` from a JSON document
(`serde_json::from_str::<Envelope>` in `process_message`). -/
def parseEnvelope (j : Json) : Option Envelope :=
  match j with
  | .obj fs => do
    let p ← (lookupKey ("pattern".toList) fs).bind jString?
    let d ← lookupKey ("data".toList) fs
    let m ← parseNotificationMessage d
    pure ⟨p, m⟩
  | _ => none

/-- Serializing a `NotificationMessage` (the `Serialize` derive). -/
def encodeMessage (m : NotifMessage) : Json :=
  .obj [("notification_id".toList, .str m.notification_id),
        ("idempotency_key".toList, .str m.idempotency_key),
        ("notification_type".toList, .str m.notification_type),
        ("user_id".toList, .str m.user_id),
        ("template_code".toList, .str m.template_code),
        ("variables".toList, .obj m.«variables»),
        ("request_id".toList, .str m.request_id),
        ("priority".toList, .num m.priority),
        ("metadata".toList, .obj m.metadata),
        ("created_by".toList, .str m.created_by),
        ("timestamp".toList, .str m.timestamp)]

/-- `DlqMessage` (`models/message.rs:20`); `failure_reason` carries the
processing error's display string, `failed_at` the RFC3339 timestamp. -/
structure DlqMessage where
  original_message : NotifMessage
  failure_reason : Str
  failed_at : Str

/-- The dispatcher's error branch (`main.rs:123–155`): re-parse the raw
payload as a bare `NotificationMessage`; when that succeeds, publish a
`DlqMessage` wrapping it; in every case reject the delivery with
`requeue = false`.  Returns the published message (if any) and the
`requeue` flag passed to `reject`. -/
def dispatchOnError (payload : Json) (errDisplay nowStr : Str) :
    Option DlqMessage × Bool :=
  (match parseNotificationMessage payload with
   | some m => some ⟨m, errDisplay, nowStr⟩
   | none => none,
   false)

/-! ## Idempotency store and processor — `clients/redis.rs`,
`utils.rs process_message` -/

/-- `IdempotencyStatus` (`models/status.rs`). -/
inductive IdemStatus where
  | notFound
  | processing
  | sent
  | failed
deriving DecidableEq

/-- `NotificationStatus` (`models/status.rs`). -/
inductive NotifStatus where
  | queued
  | processing
  | sent
  | failed
  | dlq
deriving DecidableEq

/-- The value stored under `idempotency:<key>` for one key: absent, one
of the three strings the store writes, or an unrecognized string
(`other`), which `check_idempotency` reports as `NotFound`. -/
inductive CacheVal where
  | processing
  | sent
  | failed
  | other
deriving DecidableEq

/-- `check_idempotency`'s mapping from the cached value to a status
(`redis.rs:50–63`): absence and unknown strings map to `NotFound`. -/
def statusOfVal : Option CacheVal → IdemStatus
  | none => .notFound
  | some .processing => .processing
  | some .sent => .sent
  | some .failed => .failed
  | some .other => .notFound

/-- Outcome of extracting and validating the device token in one run
(abstracting the message contents for the store-protocol model). -/
inductive TokenCase where
  | missing
  | invalid
  | valid
deriving DecidableEq

/-- Oracle for one `process_message` run against the store: which cache
operations fail transiently and how the message-level steps turn out. -/
structure RunOracle where
  checkErr : Bool
  markProcErr : Bool
  tokenCase : TokenCase
  fetchOk : Bool
  renderOk : Bool
  sendOk : Bool
  markFailedErr : Bool
  markSentErr : Bool

/-- The store transition of one `process_message` run (`utils.rs:38` on)
restricted to its interaction with the entry of one idempotency key:
`check` (read; on `Ok(Sent)`/`Ok(Processing)` skip, on anything else —
including a read error, matched by the `_ => {}` arm — continue),
`mark_as_processing` (propagates its error), then at most one of
`mark_as_failed` / `mark_as_sent` (the missing-token branch returns
without either). -/
def runStore (o : RunOracle) (st : Option CacheVal) : Option CacheVal :=
  if ¬o.checkErr ∧ (statusOfVal st = .sent ∨ statusOfVal st = .processing) then
    st
  else if o.markProcErr then
    st
  else
    let afterProc : Option CacheVal := some .processing
    let markFailed : Option CacheVal :=
      if o.markFailedErr then afterProc else some .failed
    match o.tokenCase with
    | .missing => afterProc
    | .invalid => markFailed
    | .valid =>
      if ¬o.fetchOk then markFailed
      else if ¬o.renderOk then markFailed
      else if o.sendOk then
        (if o.markSentErr then afterProc else some .sent)
      else markFailed

/-- Sequential composition of processor runs on one key's entry. -/
def runSeq : List RunOracle → Option CacheVal → Option CacheVal
  | [], st => st
  | o :: os, st => runSeq os (runStore o st)

/-- Processing error returned by `process_message` (the `anyhow`
messages carried structurally). -/
inductive ProcErr where
  | markProcessingFailed
  | missingToken
  | invalidToken
  | markFailedErr
  | fetchFailed
  | renderFailed
  | markSentErr
  | sendFailed
deriving DecidableEq

/-- Result of `process_message`: an ordinary `Result`, or a panic
propagated out of rendering. -/
inductive ProcRes where
  | res (r : Except ProcErr Unit)
  | panic

/-- Observable side effects of one `process_message` run, in order:
successful idempotency writes, successful audit inserts (failed inserts
are swallowed and logged), and the external calls made. -/
inductive PEffect where
  | markProcessing
  | markFailed
  | markSent
  | fetchTemplate
  | fcmSend
  | audit (st : NotifStatus)
deriving DecidableEq

/-- Environment of one `process_message` run: results of the cache
reads/writes, the template fetch, the push send, and the audit sink. -/
structure ProcEnv where
  checkResult : Except Unit IdemStatus
  markProcessingOk : Bool
  markFailedOk : Bool
  markSentOk : Bool
  auditOk : Bool
  fetchResult : Except Unit Template
  sendResult : Except Unit Unit

/-- Effects of one audit write: recorded only when the insert succeeds
(`database_client.log_notification` errors are logged and swallowed). -/
def auditEffects (env : ProcEnv) (st : NotifStatus) : List PEffect :=
  if env.auditOk then [.audit st] else []

/-- Token validation (`models/validation.rs`): nonempty, length in
[20, 200], characters alphanumeric or `_ - : .`.  Rust measures
`token.len()` in bytes and `char::is_alphanumeric` is Unicode; the
model uses char count and ASCII alphanumerics — no claim depends on the
distinction. -/
inductive TokenErr where
  | empty
  | tooShort
  | tooLong
  | invalidChars
deriving DecidableEq

/-- `validate_fcm_token` (`models/validation.rs`). -/
def validate_fcm_token (t : Str) : Except TokenErr Unit :=
  if t.isEmpty then .error .empty
  else if t.length < 20 then .error .tooShort
  else if t.length > 200 then .error .tooLong
  else if t.all (fun c => c.isAlphanum || c = '_' || c = '-' || c = ':' || c = '.')
  then .ok ()
  else .error .invalidChars

/-- `message.metadata.get("push_token").and_then(|v| v.as_str())`
(`utils.rs:63–67`). -/
def getPushToken (m : NotifMessage) : Option Str :=
  (lookupKey ("push_token".toList) m.metadata).bind jString?

/-- `process_message` (`utils.rs:20–205`), for an already-parsed
message, with the outcomes of the fallible collaborators supplied by
`env`.  Mirrors the source's control flow: the idempotency check's
`Ok(Sent)`/`Ok(Processing)` arms return `Ok` at once and the catch-all
`_ => {}` (also covering a failed read) falls through;
`mark_as_processing` and every `mark_as_failed`/`mark_as_sent` error
propagates via `?`; audit-log errors are swallowed; rendering uses the
pure `render_template` on the fetched template. -/
def process_message (m : NotifMessage) (env : ProcEnv) :
    ProcRes × List PEffect :=
  match env.checkResult with
  | .ok .sent => (.res (.ok ()), [])
  | .ok .processing => (.res (.ok ()), [])
  | _ =>
    if env.markProcessingOk then
      match getPushToken m with
      | none => (.res (.error .missingToken), [.markProcessing])
      | some tok =>
        match validate_fcm_token tok with
        | .error _ =>
          if env.markFailedOk then
            (.res (.error .invalidToken),
             [.markProcessing, .markFailed] ++ auditEffects env .failed)
          else
            (.res (.error .markFailedErr), [.markProcessing])
        | .ok _ =>
          match env.fetchResult with
          | .error _ =>
            if env.markFailedOk then
              (.res (.error .fetchFailed),
               [.markProcessing, .fetchTemplate, .markFailed] ++
                 auditEffects env .failed)
            else
              (.res (.error .markFailedErr), [.markProcessing, .fetchTemplate])
          | .ok tmpl =>
            match render_template tmpl m.«variables» with
            | .panic => (.panic, [.markProcessing, .fetchTemplate])
            | .err _ =>
              if env.markFailedOk then
                (.res (.error .renderFailed),
                 [.markProcessing, .fetchTemplate, .markFailed] ++
                   auditEffects env .failed)
              else
                (.res (.error .markFailedErr),
                 [.markProcessing, .fetchTemplate])
            | .ok _ =>
              match env.sendResult with
              | .ok _ =>
                if env.markSentOk then
                  (.res (.ok ()),
                   [.markProcessing, .fetchTemplate, .fcmSend, .markSent] ++
                     auditEffects env .sent)
                else
                  (.res (.error .markSentErr),
                   [.markProcessing, .fetchTemplate, .fcmSend])
              | .error _ =>
                if env.markFailedOk then
                  (.res (.error .sendFailed),
                   [.markProcessing, .fetchTemplate, .fcmSend, .markFailed] ++
                     auditEffects env .failed)
                else
                  (.res (.error .markFailedErr),
                   [.markProcessing, .fetchTemplate, .fcmSend])
    else
      (.res (.error .markProcessingFailed), [])

/-! ## Circuit breaker — `clients/circuit_breaker.rs` -/

/-- `CircuitState` (`models/circuit_breaker.rs`). -/
inductive CircuitState where
  | Closed
  | Open
  | HalfOpen
deriving DecidableEq

/-- `CircuitBreakerConfig` (`models/circuit_breaker.rs`):
`failure_threshold: u32`, `timeout_seconds: u64`,
`success_threshold: u32`. -/
structure CBConfig where
  failure_threshold : Nat
  timeout_seconds : Nat
  success_threshold : Nat

/-- The cache entries of one breaker (`circuit:<dep>:state`,
`:failures`, `:successes`, `:opened_at`).  The breaker writes states via
`as_str` and reads them via `from_string`, which maps any unknown string
to `Closed`, as does an absent key, so `Option CircuitState` with
`getD Closed` is exact for every value the breaker itself can write.
Counters model Redis `INCR`/`DEL` on integer keys (absent = 0). -/
structure CBStore where
  state : Option CircuitState
  failures : Nat
  successes : Nat
  openedAt : Option Nat

/-- Environment of one `CircuitBreaker::call`: the thresholds, the
current time (unix seconds), and which cache accesses fail (`errAt n`
is true when the `n`-th Redis command of this call errors). -/
structure CBEnv where
  cfg : CBConfig
  now : Nat
  errAt : Nat → Bool

/-- `get_state` (`circuit_breaker.rs:128`): one cache read. -/
def cbGetState (env : CBEnv) (n : Nat) (s : CBStore) :
    Except Unit (CircuitState × Nat × CBStore) :=
  if env.errAt n then .error () else .ok (s.state.getD .Closed, n + 1, s)

/-- `set_state` (`circuit_breaker.rs:137`): one cache write. -/
def cbSetState (env : CBEnv) (v : CircuitState) (n : Nat) (s : CBStore) :
    Except Unit (Unit × Nat × CBStore) :=
  if env.errAt n then .error ()
  else .ok ((), n + 1, { s with state := some v })

/-- `increment_failure_count` (`circuit_breaker.rs:145`): an `INCR`
followed by an `EXPIRE`, each a fallible cache command (a failed
`EXPIRE` propagates after the counter has already been bumped). -/
def cbIncrFailures (env : CBEnv) (n : Nat) (s : CBStore) :
    Except Unit (Nat × Nat × CBStore) :=
  if env.errAt n then .error ()
  else
    let s1 := { s with failures := s.failures + 1 }
    if env.errAt (n + 1) then .error ()
    else .ok (s1.failures, n + 2, s1)

/-- `reset_failure_count` (`circuit_breaker.rs:154`): one `DEL`. -/
def cbResetFailures (env : CBEnv) (n : Nat) (s : CBStore) :
    Except Unit (Unit × Nat × CBStore) :=
  if env.errAt n then .error ()
  else .ok ((), n + 1, { s with failures := 0 })

/-- `increment_success_count` (`circuit_breaker.rs:160`): one `INCR`. -/
def cbIncrSuccesses (env : CBEnv) (n : Nat) (s : CBStore) :
    Except Unit (Nat × Nat × CBStore) :=
  if env.errAt n then .error ()
  else .ok (s.successes + 1, n + 1, { s with successes := s.successes + 1 })

/-- `reset_counters` (`circuit_breaker.rs:166`): three `DEL`s in
sequence, each fallible. -/
def cbResetCounters (env : CBEnv) (n : Nat) (s : CBStore) :
    Except Unit (Unit × Nat × CBStore) :=
  if env.errAt n then .error ()
  else
    let s1 := { s with failures := 0 }
    if env.errAt (n + 1) then .error ()
    else
      let s2 := { s1 with successes := 0 }
      if env.errAt (n + 2) then .error ()
      else .ok ((), n + 3, { s2 with openedAt := none })

/-- `set_opened_at` (`circuit_breaker.rs:178`): one cache write of the
current unix time. -/
def cbSetOpenedAt (env : CBEnv) (n : Nat) (s : CBStore) :
    Except Unit (Unit × Nat × CBStore) :=
  if env.errAt n then .error ()
  else .ok ((), n + 1, { s with openedAt := some env.now })

/-- `should_attempt_reset` (`circuit_breaker.rs:188`): read `opened_at`;
absent ⇒ false; otherwise `now − opened_at ≥ timeout_seconds` (the `u64`
subtraction is modelled as truncated `Nat` subtraction; the source would
wrap — or panic in debug builds — if `now < opened_at`, which no claim
exercises). -/
def cbShouldReset (env : CBEnv) (n : Nat) (s : CBStore) :
    Except Unit (Bool × Nat × CBStore) :=
  if env.errAt n then .error ()
  else
    match s.openedAt with
    | some t => .ok (decide (env.now - t ≥ env.cfg.timeout_seconds), n + 1, s)
    | none => .ok (false, n + 1, s)

/-- `record_success` (`circuit_breaker.rs:73`). -/
def cbRecordSuccess (env : CBEnv) (n : Nat) (s : CBStore) :
    Except Unit (Nat × CBStore) :=
  match cbGetState env n s with
  | .error _ => .error ()
  | .ok (st, n1, s1) =>
    match st with
    | .HalfOpen =>
      match cbIncrSuccesses env n1 s1 with
      | .error _ => .error ()
      | .ok (succ, n2, s2) =>
        if succ ≥ env.cfg.success_threshold then
          match cbSetState env .Closed n2 s2 with
          | .error _ => .error ()
          | .ok (_, n3, s3) =>
            match cbResetCounters env n3 s3 with
            | .error _ => .error ()
            | .ok (_, n4, s4) => .ok (n4, s4)
        else .ok (n2, s2)
    | .Closed =>
      match cbResetFailures env n1 s1 with
      | .error _ => .error ()
      | .ok (_, n2, s2) => .ok (n2, s2)
    | .Open => .ok (n1, s1)

/-- `record_failure` (`circuit_breaker.rs:97`). -/
def cbRecordFailure (env : CBEnv) (n : Nat) (s : CBStore) :
    Except Unit (Nat × CBStore) :=
  match cbGetState env n s with
  | .error _ => .error ()
  | .ok (st, n1, s1) =>
    match st with
    | .HalfOpen =>
      match cbSetState env .Open n1 s1 with
      | .error _ => .error ()
      | .ok (_, n2, s2) =>
        match cbSetOpenedAt env n2 s2 with
        | .error _ => .error ()
        | .ok (_, n3, s3) => .ok (n3, s3)
    | _ =>
      match cbIncrFailures env n1 s1 with
      | .error _ => .error ()
      | .ok (failures, n2, s2) =>
        if failures ≥ env.cfg.failure_threshold then
          match cbSetState env .Open n2 s2 with
          | .error _ => .error ()
          | .ok (_, n3, s3) =>
            match cbSetOpenedAt env n3 s3 with
            | .error _ => .error ()
            | .ok (_, n4, s4) => .ok (n4, s4)
        else .ok (n2, s2)

/-- Result of `CircuitBreaker::call`: the rejection sentinel
(`anyhow!("Circuit breaker is open for ..")`), a propagated cache error,
or the operation's own error. -/
inductive CBErr (ε : Type) where
  | circuitOpen
  | cache
  | op (e : ε)
deriving DecidableEq

/-- `try_operation` (`circuit_breaker.rs:56`): invoke the operation
(whose result is `opResult`), then `record_success` / `record_failure`;
an error from either recorder propagates via `?` and replaces the
operation's result.  The second component counts invocations of the
operation (always 1 here). -/
def cbTryOp (env : CBEnv) (n : Nat) (s : CBStore) (opResult : Except ε α) :
    Except (CBErr ε) α × Nat :=
  match opResult with
  | .ok v =>
    match cbRecordSuccess env n s with
    | .error _ => (.error .cache, 1)
    | .ok _ => (.ok v, 1)
  | .error e =>
    match cbRecordFailure env n s with
    | .error _ => (.error .cache, 1)
    | .ok _ => (.error (.op e), 1)

/-- `CircuitBreaker::call` (`circuit_breaker.rs:29`), with the cache
access outcomes supplied by `env` and the operation's result by
`opResult`.  Returns the call's result and how many times the operation
was invoked. -/
def circuitBreakerCall (env : CBEnv) (s0 : CBStore) (opResult : Except ε α) :
    Except (CBErr ε) α × Nat :=
  match cbGetState env 0 s0 with
  | .error _ => (.error .cache, 0)
  | .ok (st, n1, s1) =>
    match st with
    | .Open =>
      match cbShouldReset env n1 s1 with
      | .error _ => (.error .cache, 0)
      | .ok (true, n2, s2) =>
        match cbSetState env .HalfOpen n2 s2 with
        | .error _ => (.error .cache, 0)
        | .ok (_, n3, s3) => cbTryOp env n3 s3 opResult
      | .ok (false, _, _) => (.error .circuitOpen, 0)
    | .HalfOpen => cbTryOp env n1 s1 opResult
    | .Closed => cbTryOp env n1 s1 opResult

/-- The operation's own result, embedded into the breaker's result type:
"returns `op`'s result unchanged" means the call returns exactly this. -/
def opLift : Except ε α → Except (CBErr ε) α
  | .ok v => .ok v
  | .error e => .error (.op e)

/-!
# Theorems

Everything below settles the claims C1–C10 against the embedding above.
-/

/-! ## C5 — skip on `Sent`/`Processing` -/

/-- C5 (confirmed): for every message whose idempotency check observes
`Sent` or `Processing`, `process_message` returns `Ok` immediately: no
template fetch, no push send, no idempotency write, no audit write. -/
theorem process_skips_on_sent_or_processing (m : NotifMessage) (env : ProcEnv)
    (h : env.checkResult = .ok .sent ∨ env.checkResult = .ok .processing) :
    process_message m env = (.res (.ok ()), []) := by
  rcases h with h | h <;> simp [process_message, h]

/-- Witness for C5 at a concrete message and environment. -/
theorem process_skips_on_sent_or_processing_witness :
    process_message ⟨[], [], [], [], [], [], [], 0, [], [], []⟩
      ⟨.ok .sent, true, true, true, true, .error (), .ok ()⟩ =
      (.res (.ok ()), []) :=
  process_skips_on_sent_or_processing _ _ (Or.inl rfl)

/-! ## C1 — missing `push_token` -/

/-- C1 (counterexample): a parsed message whose metadata has no
`push_token` makes `process_message` return the missing-token error, but
— contrary to the claim — the run performs no `mark_as_failed` and no
`Failed` audit write (`utils.rs:63–67` returns via `ok_or_else(..)?`
before either). -/
theorem missing_token_skips_failed_write_cex :
    process_message ⟨[], [], [], [], [], [], [], 0, [], [], []⟩
        ⟨.ok .notFound, true, true, true, true, .error (), .ok ()⟩ =
      (.res (.error .missingToken), [.markProcessing]) ∧
    PEffect.markFailed ∉
      (process_message ⟨[], [], [], [], [], [], [], 0, [], [], []⟩
        ⟨.ok .notFound, true, true, true, true, .error (), .ok ()⟩).2 ∧
    PEffect.audit .failed ∉
      (process_message ⟨[], [], [], [], [], [], [], 0, [], [], []⟩
        ⟨.ok .notFound, true, true, true, true, .error (), .ok ()⟩).2 :=
  ⟨rfl, by decide, by decide⟩

/-- C1 (amended): when the check does not skip, `mark_as_processing`
succeeds and the metadata holds no `push_token` string,
`process_message` returns the `MissingToken` error with the processing
mark as its only effect — it neither marks the key failed nor writes an
audit row. -/
theorem missing_token_returns_error_without_writes (m : NotifMessage)
    (env : ProcEnv) (h1 : env.checkResult ≠ .ok .sent)
    (h2 : env.checkResult ≠ .ok .processing)
    (h3 : env.markProcessingOk = true) (h4 : getPushToken m = none) :
    process_message m env = (.res (.error .missingToken), [.markProcessing]) := by
  cases hc : env.checkResult with
  | error e => simp [process_message, hc, h3, h4]
  | ok s =>
    cases s with
    | sent => exact absurd hc h1
    | processing => exact absurd hc h2
    | notFound => simp [process_message, hc, h3, h4]
    | failed => simp [process_message, hc, h3, h4]

/-- Witness for the amended C1. -/
theorem missing_token_returns_error_without_writes_witness :
    process_message ⟨[], [], [], [], [], [], [], 0, [], [], []⟩
        ⟨.ok .notFound, true, true, true, true, .error (), .ok ()⟩ =
      (.res (.error .missingToken), [.markProcessing]) :=
  missing_token_returns_error_without_writes _ _ (by simp) (by simp) rfl rfl

/-! ## C4 — `sent` is never overwritten -/

/-- C4 (counterexample): a single processor run whose idempotency check
read fails (swallowed by the `_ => {}` arm at `utils.rs:56`) proceeds
and overwrites a `sent` entry with `processing`, so the claim's
unconditional invariant fails. -/
theorem sent_overwritten_after_check_error_cex :
    runSeq [⟨true, false, .missing, true, true, true, false, false⟩]
        (some .sent) = some .processing ∧
    (some CacheVal.processing ≠ some CacheVal.sent) :=
  ⟨rfl, by decide⟩

/-- C4 (amended): provided each run's check read succeeds, once the
entry holds `sent` no sequence of processor runs changes it (the check
observes `Sent` and every run skips). -/
theorem sent_state_preserved_by_runs (os : List RunOracle)
    (h : ∀ o ∈ os, o.checkErr = false) :
    runSeq os (some .sent) = some .sent := by
  induction os with
  | nil => rfl
  | cons o os ih =>
    have ho : o.checkErr = false := h o (List.mem_cons_self o os)
    have hstep : runStore o (some .sent) = some .sent := by
      simp [runStore, statusOfVal, ho]
    simp only [runSeq, hstep]
    exact ih fun o' ho' => h o' (List.mem_cons_of_mem o ho')

/-- Witness for the amended C4: a full successful run leaves `sent`
untouched. -/
theorem sent_state_preserved_by_runs_witness :
    runSeq [⟨false, false, .valid, true, true, true, false, false⟩]
      (some .sent) = some .sent :=
  sent_state_preserved_by_runs _ (by decide)

/-! ## C10 — the unwrap panic in `replace_variables` -/

/-- C10 (code bug): at the template `\x7d\x7d\x7b\x7b` with no
variables, the substituted text contains both brace pairs but the only
`\x7d\x7d` lies before the first `\x7b\x7b`, so
`result[start..].find("..").unwrap()` (`template.rs:140`) panics instead
of the searches always succeeding. -/
theorem replace_variables_panics_on_reversed_braces :
    replace_variables [rbr, rbr, lbr, lbr] [] = .panic := by
  decide

/-! ## C8 — unresolved-placeholder detection -/

/-- C8 (counterexample): a lone unmatched `\x7b\x7b` with no
`\x7d\x7d` anywhere fails the `contains && contains` test
(`template.rs:138`), so rendering returns `Ok` with the dangling
placeholder text — not a `MissingVariable` error as claimed. -/
theorem lone_open_brace_renders_ok_cex :
    replace_variables ("Hi ".toList ++ [lbr, lbr] ++ "user".toList) [] =
      .ok ("Hi ".toList ++ [lbr, lbr] ++ "user".toList) := by
  decide

/-! ## C6 — retry invocation count -/

/-- The final attempt number never exceeds `max max_attempts attempt`
(fuel-indexed form of the loop bound). -/
theorem retryGo_count_le (ops : Nat → Except ε α) (jitters : Nat → ℚ)
    (cfg : RetryConfig) :
    ∀ fuel attempt delayMs, cfg.max_attempts - attempt ≤ fuel →
      (retryGo ops jitters cfg attempt delayMs).2.1 ≤
        max cfg.max_attempts attempt := by
  intro fuel
  induction fuel with
  | zero =>
    intro attempt delayMs h
    rw [retryGo]
    cases hops : ops attempt with
    | ok v => simp
    | error e =>
      have hle : cfg.max_attempts ≤ attempt := by omega
      simp [hle]
  | succ fuel ih =>
    intro attempt delayMs h
    rw [retryGo]
    cases hops : ops attempt with
    | ok v => simp
    | error e =>
      by_cases hle : cfg.max_attempts ≤ attempt
      · simp [hle]
      · simp only [hle, dite_false]
        have hrec := ih (attempt + 1)
          (min (delayMs * cfg.backoff_multiplier % U64MOD) cfg.max_delay_ms)
          (by omega)
        have hmax : max cfg.max_attempts (attempt + 1) = cfg.max_attempts :=
          Nat.max_eq_left (by omega)
        calc (retryGo ops jitters cfg (attempt + 1) _).2.1
            ≤ max cfg.max_attempts (attempt + 1) := hrec
          _ ≤ max cfg.max_attempts attempt := by
              rw [hmax]; exact Nat.le_max_left _ _

/-- When every invocation fails, the loop performs exactly
`max max_attempts attempt` invocations and returns the error of the
final one. -/
theorem retryGo_allfail (ops : Nat → Except ε α) (jitters : Nat → ℚ)
    (cfg : RetryConfig) (hf : ∀ n, ∃ e, ops n = .error e) :
    ∀ fuel attempt delayMs, cfg.max_attempts - attempt ≤ fuel →
      (retryGo ops jitters cfg attempt delayMs).2.1 =
        max cfg.max_attempts attempt ∧
      ∃ e, ops (max cfg.max_attempts attempt) = .error e ∧
        (retryGo ops jitters cfg attempt delayMs).1 = .error e := by
  intro fuel
  induction fuel with
  | zero =>
    intro attempt delayMs h
    obtain ⟨e, he⟩ := hf attempt
    have hle : cfg.max_attempts ≤ attempt := by omega
    have hmax : max cfg.max_attempts attempt = attempt := Nat.max_eq_right hle
    rw [retryGo, he]
    simp [hle, hmax, he]
  | succ fuel ih =>
    intro attempt delayMs h
    obtain ⟨e, he⟩ := hf attempt
    by_cases hle : cfg.max_attempts ≤ attempt
    · have hmax : max cfg.max_attempts attempt = attempt := Nat.max_eq_right hle
      rw [retryGo, he]
      simp [hle, hmax, he]
    · have hrec := ih (attempt + 1)
        (min (delayMs * cfg.backoff_multiplier % U64MOD) cfg.max_delay_ms)
        (by omega)
      have hmax : max cfg.max_attempts (attempt + 1) = cfg.max_attempts :=
        Nat.max_eq_left (by omega)
      have hmax' : max cfg.max_attempts attempt = cfg.max_attempts :=
        Nat.max_eq_left (by omega)
      rw [retryGo, he]
      simp only [hle, dite_false]
      rw [hmax] at hrec
      rw [hmax']
      exact ⟨hrec.1, hrec.2⟩

/-- C6 (counterexample): with `max_attempts = 0` the loop still invokes
the operation once (`attempt` is incremented to 1 before the
`attempt >= config.max_attempts` check), refuting "at most
`max_attempts` times — including when `max_attempts = 0`". -/
theorem retry_zero_max_attempts_invokes_once_cex :
    (retry_with_backoff (fun _ => (Except.error 0 : Except Nat Nat))
        (fun _ => 0) ⟨0, 1, 1000, 2⟩).2.1 = 1 ∧
    ¬ (retry_with_backoff (fun _ => (Except.error 0 : Except Nat Nat))
        (fun _ => 0) ⟨0, 1, 1000, 2⟩).2.1 ≤
      (⟨0, 1, 1000, 2⟩ : RetryConfig).max_attempts := by
  have h : (retry_with_backoff (fun _ => (Except.error 0 : Except Nat Nat))
      (fun _ => 0) ⟨0, 1, 1000, 2⟩).2.1 = 1 := by
    simp [retry_with_backoff, retryGo]
  exact ⟨h, by rw [h]; decide⟩

/-- C6 (amended): `retry_with_backoff` invokes its operation at most
`max max_attempts 1` times (one invocation always happens, so a
`max_attempts` of 0 behaves like 1); when every invocation fails it
invokes it exactly `max max_attempts 1` times and returns the final
invocation's error. -/
theorem retry_invocation_count (cfg : RetryConfig) (ops : Nat → Except ε α)
    (jitters : Nat → ℚ) :
    (retry_with_backoff ops jitters cfg).2.1 ≤ max cfg.max_attempts 1 ∧
    ((∀ n, ∃ e, ops n = .error e) →
      (retry_with_backoff ops jitters cfg).2.1 = max cfg.max_attempts 1 ∧
      ∃ e, ops (max cfg.max_attempts 1) = .error e ∧
        (retry_with_backoff ops jitters cfg).1 = .error e) := by
  constructor
  · exact retryGo_count_le ops jitters cfg (cfg.max_attempts - 1) 1
      cfg.initial_delay_ms le_rfl
  · intro hf
    exact retryGo_allfail ops jitters cfg hf (cfg.max_attempts - 1) 1
      cfg.initial_delay_ms le_rfl

/-- Witness for the amended C6 at a concrete always-failing operation
with `max_attempts = 3`. -/
theorem retry_invocation_count_witness :
    (retry_with_backoff (fun _ => (Except.error 7 : Except Nat Nat))
        (fun _ => 0) ⟨3, 1, 10, 2⟩).2.1 ≤ max 3 1 ∧
    ((retry_with_backoff (fun _ => (Except.error 7 : Except Nat Nat))
        (fun _ => 0) ⟨3, 1, 10, 2⟩).2.1 = max 3 1 ∧
      ∃ e, (fun _ => (Except.error 7 : Except Nat Nat)) (max 3 1) = .error e ∧
        (retry_with_backoff (fun _ => (Except.error 7 : Except Nat Nat))
          (fun _ => 0) ⟨3, 1, 10, 2⟩).1 = .error e) :=
  ⟨(retry_invocation_count ⟨3, 1, 10, 2⟩ _ _).1,
   (retry_invocation_count ⟨3, 1, 10, 2⟩ _ _).2 fun _ => ⟨7, rfl⟩⟩

/-! ## C3 — circuit breaker call contract -/

/-- C3 (counterexample): when the breaker's own state read fails, `call`
returns that cache error via `?` (`circuit_breaker.rs:34`) — the
operation is not invoked, yet the result is neither the operation's
result nor `CircuitOpen`, and the cache error is not treated as the
`Closed` state. -/
theorem breaker_cache_error_not_fail_open_cex :
    circuitBreakerCall ⟨⟨5, 60, 3⟩, 0, fun _ => true⟩ ⟨none, 0, 0, none⟩
        (Except.ok (42 : Nat) (ε := Unit)) = (.error .cache, 0) ∧
    (Except.error (CBErr.cache (ε := Unit)) : Except (CBErr Unit) Nat) ≠
      .error .circuitOpen ∧
    (Except.error (CBErr.cache (ε := Unit)) : Except (CBErr Unit) Nat) ≠
      .ok 42 := by
  refine ⟨rfl, by simp, by simp⟩

/-- C3 (amended): `call` invokes the operation at most once, and — when
every cache access of the call succeeds — either returns `CircuitOpen`
without invoking the operation or invokes it exactly once and returns
its result unchanged.  A cache error is instead propagated to the
caller: before the operation it prevents the invocation, after it it
replaces the operation's result (no fail-open). -/
theorem breaker_call_contract (env : CBEnv) (s : CBStore)
    (op : Except ε α) :
    (circuitBreakerCall env s op).2 ≤ 1 ∧
    ((∀ n, env.errAt n = false) →
      circuitBreakerCall env s op = (.error .circuitOpen, 0) ∨
      ((circuitBreakerCall env s op).1 = opLift op ∧
        (circuitBreakerCall env s op).2 = 1)) := by
  have htry2 : ∀ (n : Nat) (s1 : CBStore), (cbTryOp (α := α) env n s1 op).2 = 1 := by
    intro n s1
    unfold cbTryOp
    cases op <;> dsimp only <;> split <;> rfl
  constructor
  · unfold circuitBreakerCall
    repeat' split
    all_goals simp [htry2]
  · intro h
    have hrs : ∀ (n : Nat) (s1 : CBStore), ∃ r, cbRecordSuccess env n s1 = .ok r := by
      intro n s1
      unfold cbRecordSuccess cbGetState cbIncrSuccesses cbSetState
        cbResetCounters cbResetFailures
      simp [h]
      split <;> (try split) <;> simp
    have hrf : ∀ (n : Nat) (s1 : CBStore), ∃ r, cbRecordFailure env n s1 = .ok r := by
      intro n s1
      unfold cbRecordFailure cbGetState cbIncrFailures cbSetState
        cbSetOpenedAt
      simp [h]
      split <;> (try split) <;> simp
    have htry : ∀ (n : Nat) (s1 : CBStore), cbTryOp (α := α) env n s1 op = (opLift op, 1) := by
      intro n s1
      unfold cbTryOp
      cases op with
      | ok v =>
        obtain ⟨r, hq⟩ := hrs n s1
        rw [hq]; rfl
      | error e =>
        obtain ⟨r, hq⟩ := hrf n s1
        rw [hq]; rfl
    have hgs : cbGetState env 0 s = .ok (s.state.getD .Closed, 1, s) := by
      unfold cbGetState; simp [h]
    unfold circuitBreakerCall
    cases hst : s.state.getD CircuitState.Closed with
    | Closed =>
      simp only [hgs, hst, htry]
      exact Or.inr ⟨trivial, trivial⟩
    | HalfOpen =>
      simp only [hgs, hst, htry]
      exact Or.inr ⟨trivial, trivial⟩
    | Open =>
      cases hoa : s.openedAt with
      | none =>
        have hsr : cbShouldReset env 1 s = .ok (false, 2, s) := by
          unfold cbShouldReset; simp [h, hoa]
        simp only [hgs, hst, hsr]
        exact Or.inl trivial
      | some t =>
        by_cases hc : env.cfg.timeout_seconds ≤ env.now - t
        · have hsr : cbShouldReset env 1 s = .ok (true, 2, s) := by
            unfold cbShouldReset; simp [h, hoa, hc]
          have hss : cbSetState env .HalfOpen 2 s =
              .ok ((), 3, { s with state := some .HalfOpen }) := by
            unfold cbSetState; simp [h]
          simp only [hgs, hst, hsr, hss, htry]
          exact Or.inr ⟨trivial, trivial⟩
        · have hsr : cbShouldReset env 1 s = .ok (false, 2, s) := by
            unfold cbShouldReset; simp [h, hoa, hc]
          simp only [hgs, hst, hsr]
          exact Or.inl trivial

/-- Witness for the amended C3: a closed breaker with a healthy cache
passes the operation's success through and invokes it once. -/
theorem breaker_call_contract_witness :
    (circuitBreakerCall ⟨⟨5, 60, 3⟩, 0, fun _ => false⟩ ⟨none, 0, 0, none⟩
        (Except.ok (42 : Nat) (ε := Unit))).2 ≤ 1 ∧
    (circuitBreakerCall ⟨⟨5, 60, 3⟩, 0, fun _ => false⟩ ⟨none, 0, 0, none⟩
        (Except.ok (42 : Nat) (ε := Unit)) = (.error .circuitOpen, 0) ∨
      ((circuitBreakerCall ⟨⟨5, 60, 3⟩, 0, fun _ => false⟩ ⟨none, 0, 0, none⟩
          (Except.ok (42 : Nat) (ε := Unit))).1 =
            opLift (Except.ok (42 : Nat) (ε := Unit)) ∧
        (circuitBreakerCall ⟨⟨5, 60, 3⟩, 0, fun _ => false⟩ ⟨none, 0, 0, none⟩
          (Except.ok (42 : Nat) (ε := Unit))).2 = 1)) :=
  ⟨(breaker_call_contract _ _ _).1,
   (breaker_call_contract _ _ _).2 fun _ => rfl⟩

/-! ## C7 — backoff delay shape -/

/-- Peeling one update step off the front of the delay recurrence. -/
theorem dFrom_shift (cfg : RetryConfig) (d : Nat) :
    ∀ k, dFrom cfg d (k + 1) =
      dFrom cfg (min (d * cfg.backoff_multiplier % U64MOD) cfg.max_delay_ms) k := by
  intro k
  induction k with
  | zero => rfl
  | succ k ih =>
    calc dFrom cfg d (k + 1 + 1)
        = min (dFrom cfg d (k + 1) * cfg.backoff_multiplier % U64MOD)
            cfg.max_delay_ms := rfl
      _ = min (dFrom cfg (min (d * cfg.backoff_multiplier % U64MOD)
              cfg.max_delay_ms) k * cfg.backoff_multiplier % U64MOD)
            cfg.max_delay_ms := by rw [ih]
      _ = dFrom cfg (min (d * cfg.backoff_multiplier % U64MOD)
            cfg.max_delay_ms) (k + 1) := rfl

/-- The evolved delay never exceeds `max` of its start and the cap. -/
theorem dFrom_le_max (cfg : RetryConfig) (d : Nat) :
    ∀ k, dFrom cfg d k ≤ max d cfg.max_delay_ms := by
  intro k
  cases k with
  | zero => exact le_max_left _ _
  | succ k => exact le_trans (min_le_right _ _) (le_max_right _ _)

/-- Closed form of the delay sequence: absent `u64` overflow,
`delay` before the `(k+1)`-th gap is
`min (initial · multiplier ^ k) max_delay` for `k ≥ 1` (the first gap
uses the unclamped `initial`). -/
theorem dFrom_closed (cfg : RetryConfig)
    (h1 : cfg.initial_delay_ms * cfg.backoff_multiplier < U64MOD)
    (h2 : cfg.max_delay_ms * cfg.backoff_multiplier < U64MOD) :
    ∀ k, 1 ≤ k →
      dFrom cfg cfg.initial_delay_ms k =
        min (cfg.initial_delay_ms * cfg.backoff_multiplier ^ k)
          cfg.max_delay_ms := by
  intro k hk
  induction k with
  | zero => omega
  | succ k ih =>
    rcases Nat.eq_zero_or_pos k with h0 | hpos
    · subst h0
      show min (dFrom cfg cfg.initial_delay_ms 0 * cfg.backoff_multiplier %
          U64MOD) cfg.max_delay_ms = _
      rw [show dFrom cfg cfg.initial_delay_ms 0 = cfg.initial_delay_ms from rfl,
        Nat.mod_eq_of_lt h1, pow_one]
    · have ihk := ih hpos
      have hle : dFrom cfg cfg.initial_delay_ms k ≤ cfg.max_delay_ms := by
        cases k with
        | zero => omega
        | succ j => exact min_le_right _ _
      have hmul : dFrom cfg cfg.initial_delay_ms k * cfg.backoff_multiplier <
          U64MOD := lt_of_le_of_lt (Nat.mul_le_mul_right _ hle) h2
      show min (dFrom cfg cfg.initial_delay_ms k * cfg.backoff_multiplier %
          U64MOD) cfg.max_delay_ms = _
      rw [Nat.mod_eq_of_lt hmul, ihk]
      rcases le_or_lt (cfg.initial_delay_ms * cfg.backoff_multiplier ^ k)
          cfg.max_delay_ms with hA | hA
      · rw [min_eq_left hA, pow_succ, ← mul_assoc]
      · rw [min_eq_right (le_of_lt hA)]
        rcases Nat.eq_zero_or_pos cfg.backoff_multiplier with hm | hm
        · simp [hm]
        · have hcap : cfg.max_delay_ms ≤
              cfg.max_delay_ms * cfg.backoff_multiplier :=
            Nat.le_mul_of_pos_right _ hm
          rw [min_eq_right hcap]
          have hgrow : cfg.max_delay_ms ≤
              cfg.initial_delay_ms * cfg.backoff_multiplier ^ (k + 1) :=
            le_trans (le_of_lt hA)
              (Nat.mul_le_mul_left _ (Nat.pow_le_pow_right hm (Nat.le_succ k)))
          rw [min_eq_right hgrow]

/-- Every slept delay emitted by the loop is the jittered value of the
evolved base delay (fuel-indexed form). -/
theorem retryGo_sleeps (ops : Nat → Except ε α) (jitters : Nat → ℚ)
    (cfg : RetryConfig) :
    ∀ fuel attempt delayMs k s, cfg.max_attempts - attempt ≤ fuel →
      (retryGo ops jitters cfg attempt delayMs).2.2[k]? = some s →
      s = jitteredDelay (dFrom cfg delayMs k) (jitters (attempt + k)) := by
  intro fuel
  induction fuel with
  | zero =>
    intro attempt delayMs k s h hs
    rw [retryGo] at hs
    cases hops : ops attempt with
    | ok v => rw [hops] at hs; simp at hs
    | error e =>
      have hle : cfg.max_attempts ≤ attempt := by omega
      rw [hops] at hs
      simp [hle] at hs
  | succ fuel ih =>
    intro attempt delayMs k s h hs
    rw [retryGo] at hs
    cases hops : ops attempt with
    | ok v => rw [hops] at hs; simp at hs
    | error e =>
      rw [hops] at hs
      by_cases hle : cfg.max_attempts ≤ attempt
      · simp [hle] at hs
      · simp only [hle, dite_false] at hs
        cases k with
        | zero =>
          simp only [List.getElem?_cons_zero, Option.some.injEq] at hs
          simp [← hs, dFrom]
        | succ k =>
          simp only [List.getElem?_cons_succ] at hs
          have hrec := ih (attempt + 1)
            (min (delayMs * cfg.backoff_multiplier % U64MOD) cfg.max_delay_ms)
            k s (by omega) hs
          rw [hrec, dFrom_shift]
          have harg : attempt + (k + 1) = attempt + 1 + k := by omega
          rw [harg]

/-- Bounds on the jittered, truncated sleep: for a base delay within
`u64`-safe range and a jitter in `[−0.1, 0.1]`, the slept value lies in
`(0.9·d − 1, 1.1·d]` — the lower end is open because the `as u64` cast
truncates. -/
theorem jitteredDelay_bounds (d : Nat) (j : ℚ) (hd : d ≤ 2 ^ 63)
    (hj9 : -(1/10) ≤ j) (hj11 : j ≤ 1/10) :
    (9 : ℚ)/10 * d - 1 < (jitteredDelay d j : ℚ) ∧
    (jitteredDelay d j : ℚ) ≤ (11 : ℚ)/10 * d := by
  set q : ℚ := (d : ℚ) * (1 + j) with hq
  have hd0 : (0 : ℚ) ≤ (d : ℚ) := by positivity
  have hql : (9 : ℚ)/10 * d ≤ q := by
    rw [hq]
    nlinarith [mul_nonneg hd0 (show (0 : ℚ) ≤ j + 1/10 by linarith)]
  have hqu : q ≤ (11 : ℚ)/10 * d := by
    rw [hq]
    nlinarith [mul_nonneg hd0 (show (0 : ℚ) ≤ 1/10 - j by linarith)]
  have hq0 : (0 : ℚ) ≤ q := le_trans (by positivity) hql
  have hfl0 : (0 : ℤ) ≤ ⌊q⌋ := Int.floor_nonneg.mpr hq0
  have hqbig : q ≤ ((U64MOD - 1 : Nat) : ℚ) := by
    calc q ≤ (11 : ℚ)/10 * d := hqu
      _ ≤ (11 : ℚ)/10 * (2 ^ 63 : Nat) := by
          apply mul_le_mul_of_nonneg_left _ (by norm_num)
          exact_mod_cast hd
      _ ≤ ((U64MOD - 1 : Nat) : ℚ) := by
          rw [show (U64MOD - 1 : Nat) = 2 ^ 64 - 1 from rfl]
          push_cast
          norm_num
  have hfl : (⌊q⌋ : ℚ) ≤ ((U64MOD - 1 : Nat) : ℚ) :=
    le_trans (Int.floor_le q) hqbig
  have hsat : Int.toNat ⌊q⌋ ≤ U64MOD - 1 := by
    rw [Int.toNat_le]
    exact_mod_cast hfl
  have hjd : jitteredDelay d j = Int.toNat ⌊q⌋ := by
    unfold jitteredDelay
    rw [← hq, min_eq_left hsat]
  have hcast : ((Int.toNat ⌊q⌋ : Nat) : ℚ) = ((⌊q⌋ : ℤ) : ℚ) := by
    exact_mod_cast congrArg (fun z : ℤ => (z : ℚ)) (Int.toNat_of_nonneg hfl0)
  constructor
  · rw [hjd, hcast]
    have := Int.sub_one_lt_floor q
    linarith [this, hql]
  · rw [hjd, hcast]
    exact le_trans (Int.floor_le q) hqu

/-- C7 (counterexample): with `initial_delay_ms = 1` and jitter drawn at
`−0.1`, the slept delay is `(1 · 0.9) as u64 = 0`, strictly below the
claimed lower band `0.9 · d = 0.9`. -/
theorem retry_delay_below_band_cex :
    (retry_with_backoff (fun _ => (Except.error 0 : Except Nat Nat))
        (fun _ => -(1/10 : ℚ)) ⟨2, 1, 1000, 2⟩).2.2 = [0] ∧
    -(1/10 : ℚ) ≤ -(1/10 : ℚ) ∧ -(1/10 : ℚ) ≤ (1/10 : ℚ) ∧
    dSeq ⟨2, 1, 1000, 2⟩ 1 = 1 ∧
    ¬ ((9 : ℚ)/10 * (dSeq ⟨2, 1, 1000, 2⟩ 1 : Nat) ≤ ((0 : Nat) : ℚ)) := by
  have hd : dSeq ⟨2, 1, 1000, 2⟩ 1 = 1 := rfl
  refine ⟨?_, le_refl _, by norm_num, hd, ?_⟩
  · simp [retry_with_backoff, retryGo, jitteredDelay, U64MOD]
    norm_num
  · rw [hd]
    norm_num

/-- C7 (amended): absent `u64` overflow, the base delay before the gap
following attempt `k + 1` is the unclamped `initial_delay_ms` for the
first gap and `min (initial · multiplier ^ k) max_delay` afterwards, and
the slept delay lies in `(0.9·d − 1, 1.1·d]` (not `[0.9·d, 1.1·d]`: the
`as u64` truncation can dip below the band by up to one millisecond). -/
theorem retry_delay_bounds (cfg : RetryConfig) (ops : Nat → Except ε α)
    (jitters : Nat → ℚ)
    (h1 : cfg.initial_delay_ms * cfg.backoff_multiplier < U64MOD)
    (h2 : cfg.max_delay_ms * cfg.backoff_multiplier < U64MOD)
    (hI : cfg.initial_delay_ms ≤ 2 ^ 63) (hM : cfg.max_delay_ms ≤ 2 ^ 63)
    (hj : ∀ n, -(1/10 : ℚ) ≤ jitters n ∧ jitters n ≤ 1/10)
    (k s : Nat)
    (hs : (retry_with_backoff ops jitters cfg).2.2[k]? = some s) :
    (dSeq cfg (k + 1) = if k = 0 then cfg.initial_delay_ms
      else min (cfg.initial_delay_ms * cfg.backoff_multiplier ^ k)
        cfg.max_delay_ms) ∧
    (9 : ℚ)/10 * (dSeq cfg (k + 1) : Nat) - 1 < (s : ℚ) ∧
    (s : ℚ) ≤ (11 : ℚ)/10 * (dSeq cfg (k + 1) : Nat) := by
  have hseq : s = jitteredDelay (dFrom cfg cfg.initial_delay_ms k)
      (jitters (1 + k)) :=
    retryGo_sleeps ops jitters cfg (cfg.max_attempts - 1) 1
      cfg.initial_delay_ms k s le_rfl hs
  have hd : dFrom cfg cfg.initial_delay_ms k ≤ 2 ^ 63 :=
    le_trans (dFrom_le_max cfg _ k) (max_le hI hM)
  have hdseq : dSeq cfg (k + 1) = dFrom cfg cfg.initial_delay_ms k := by
    unfold dSeq
    norm_num
  refine ⟨?_, ?_⟩
  · rw [hdseq]
    cases k with
    | zero => simp [dFrom]
    | succ k =>
      rw [if_neg (Nat.succ_ne_zero k)]
      exact dFrom_closed cfg h1 h2 (k + 1) (by omega)
  · rw [hdseq, hseq]
    have hb := jitteredDelay_bounds (dFrom cfg cfg.initial_delay_ms k)
      (jitters (1 + k)) hd (hj (1 + k)).1 (hj (1 + k)).2
    exact ⟨hb.1, hb.2⟩

/-- Witness for the amended C7 at a concrete failing run
(`max_attempts = 3`, `initial = 100`, zero jitter, first gap). -/
theorem retry_delay_bounds_witness :
    (dSeq ⟨3, 100, 1000, 2⟩ (0 + 1) = if 0 = 0 then (100 : Nat)
      else min (100 * 2 ^ 0) 1000) ∧
    (9 : ℚ)/10 * (dSeq ⟨3, 100, 1000, 2⟩ (0 + 1) : Nat) - 1 < ((100 : Nat) : ℚ) ∧
    ((100 : Nat) : ℚ) ≤ (11 : ℚ)/10 * (dSeq ⟨3, 100, 1000, 2⟩ (0 + 1) : Nat) :=
  retry_delay_bounds ⟨3, 100, 1000, 2⟩
    (fun _ => (Except.error 0 : Except Nat Nat)) (fun _ => 0)
    (by norm_num [U64MOD]) (by norm_num [U64MOD]) (by norm_num) (by norm_num)
    (fun _ => by norm_num) 0 100
    (by simp [retry_with_backoff, retryGo, jitteredDelay, U64MOD])

/-! ## C8 — outcome of `replace_variables` after substitution -/

/-- A prefix of a concatenation yields the left part as prefix. -/
theorem isPref_append_left (a b : Str) :
    ∀ u, isPref (a ++ b) u = true → isPref a u = true := by
  induction a with
  | nil => intro u _; rfl
  | cons c a ih =>
    intro u h
    cases u with
    | nil => exact absurd h (by simp [isPref])
    | cons d u =>
      simp only [List.cons_append, isPref, Bool.and_eq_true,
        decide_eq_true_eq] at h ⊢
      exact ⟨h.1, ih u h.2⟩

/-- A prefix of a concatenation yields the right part as prefix of the
rest. -/
theorem isPref_append_right (a b : Str) :
    ∀ u, isPref (a ++ b) u = true → isPref b (u.drop a.length) = true := by
  induction a with
  | nil => intro u h; simpa using h
  | cons c a ih =>
    intro u h
    cases u with
    | nil => exact absurd h (by simp [isPref])
    | cons d u =>
      simp only [List.cons_append, isPref, Bool.and_eq_true,
        decide_eq_true_eq] at h
      simpa using ih u h.2

/-- `containsSub` as an existence of a matching offset. -/
theorem containsSub_iff (p : Str) :
    ∀ s, containsSub p s = true ↔ ∃ i, isPref p (s.drop i) = true := by
  intro s
  induction s with
  | nil =>
    simp only [containsSub]
    cases p with
    | nil => simp [isPref]
    | cons c p => simp [List.isEmpty, isPref]
  | cons c s ih =>
    simp only [containsSub, Bool.or_eq_true, ih]
    constructor
    · rintro (h | ⟨i, hi⟩)
      · exact ⟨0, h⟩
      · exact ⟨i + 1, by simpa using hi⟩
    · rintro ⟨i, hi⟩
      cases i with
      | zero => exact Or.inl (by simpa using hi)
      | succ i => exact Or.inr ⟨i, by simpa using hi⟩

/-- A successful `find` is a match at the returned offset. -/
theorem findSub_isPref (p : Str) :
    ∀ s i, findSub p s = some i → isPref p (s.drop i) = true := by
  intro s
  induction s with
  | nil =>
    intro i h
    simp only [findSub] at h
    cases p with
    | nil => cases h; rfl
    | cons c p => simp [List.isEmpty] at h
  | cons c s ih =>
    intro i h
    simp only [findSub] at h
    by_cases hp : isPref p (c :: s) = true
    · rw [if_pos hp] at h
      cases h
      simpa using hp
    · rw [if_neg hp] at h
      simp only [Option.map_eq_some'] at h
      obtain ⟨j, hj, rfl⟩ := h
      simpa using ih j hj

/-- A complete placeholder occurring in a string forces both brace
pairs to occur in it. -/
theorem contains_braces_of_placeholder (k r : Str)
    (h : containsSub (placeholderOf k) r = true) :
    containsSub [lbr, lbr] r = true ∧ containsSub [rbr, rbr] r = true := by
  obtain ⟨i, hi⟩ := (containsSub_iff _ r).mp h
  constructor
  · refine (containsSub_iff _ r).mpr ⟨i, ?_⟩
    have : placeholderOf k = [lbr, lbr] ++ (k ++ [rbr, rbr]) := by
      simp [placeholderOf]
    rw [this] at hi
    exact isPref_append_left _ _ _ hi
  · have hsplit : placeholderOf k = (lbr :: lbr :: k) ++ [rbr, rbr] := by
      simp [placeholderOf]
    rw [hsplit] at hi
    have h3 := isPref_append_right _ _ _ hi
    rw [List.drop_drop] at h3
    exact (containsSub_iff _ r).mpr ⟨_, h3⟩

/-- C8 (amended): given the substitution loop's result `r`
(`substLoop vs t = ok r`): if `r` lacks `\x7b\x7b` or lacks `\x7d\x7d`,
`replace_variables` returns `Ok r`, and `r` contains no complete
`\x7b\x7bkey\x7d\x7d` placeholder for any key (a lone `\x7b\x7b` or
`\x7d\x7d` may remain).  If instead a `\x7d\x7d` occurs at or after the
first `\x7b\x7b` (offsets `i` and `i + j`), it returns a
`MissingVariable` error naming the slice of `r` from the first
`\x7b\x7b` through that `\x7d\x7d` inclusive.  (When `r` has both pairs
but every `\x7d\x7d` precedes the first `\x7b\x7b`, the source panics —
claim C10.) -/
theorem replace_variables_outcome (t : Str) (vs : List (Str × Json))
    (r : Str) (h : substLoop vs t = .ok r) :
    (¬ (containsSub [lbr, lbr] r = true ∧ containsSub [rbr, rbr] r = true) →
      replace_variables t vs = .ok r ∧
      ∀ k, containsSub (placeholderOf k) r = false) ∧
    (∀ i j, findSub [lbr, lbr] r = some i →
      findSub [rbr, rbr] (r.drop i) = some j →
      replace_variables t vs = .err (.missingVar ((r.drop i).take (j + 2)))) := by
  constructor
  · intro hno
    have hand : (containsSub [lbr, lbr] r && containsSub [rbr, rbr] r) = false := by
      by_cases h1 : containsSub [lbr, lbr] r = true
      · by_cases h2 : containsSub [rbr, rbr] r = true
        · exact absurd ⟨h1, h2⟩ hno
        · simp only [Bool.not_eq_true] at h2
          simp [h2]
      · simp only [Bool.not_eq_true] at h1
        simp [h1]
    constructor
    · simp [replace_variables, h, hand]
    · intro k
      by_cases hk : containsSub (placeholderOf k) r = true
      · exact absurd (contains_braces_of_placeholder k r hk) hno
      · simpa using hk
  · intro i j hfi hfj
    have hA : containsSub [lbr, lbr] r = true :=
      (containsSub_iff _ r).mpr ⟨i, findSub_isPref _ r i hfi⟩
    have hB : containsSub [rbr, rbr] r = true := by
      have h3 := findSub_isPref _ (r.drop i) j hfj
      rw [List.drop_drop] at h3
      exact (containsSub_iff _ r).mpr ⟨_, h3⟩
    simp [replace_variables, h, hA, hB, hfi, hfj]

/-- Witness for the amended C8: `Hi \x7b\x7buser_name\x7d\x7d` with no
variables yields the missing-variable error naming the placeholder. -/
theorem replace_variables_outcome_witness :
    replace_variables ("Hi ".toList ++ placeholderOf ("user_name".toList)) [] =
      .err (.missingVar
        ((("Hi ".toList ++ placeholderOf ("user_name".toList)).drop 3).take
          (11 + 2))) :=
  (replace_variables_outcome _ [] _ rfl).2 3 11 (by decide) (by decide)

/-! ## C2 — dead-letter routing of terminally failed deliveries -/

/-- serde round trip: a serialized `NotificationMessage` deserializes to
itself (the `i32` bound on `priority` is the one serde checks). -/
theorem parse_encode_roundtrip (m : NotifMessage)
    (hpr : -(2 ^ 31) ≤ m.priority ∧ m.priority < 2 ^ 31) :
    parseNotificationMessage (encodeMessage m) = some m := by
  have h1 : -2147483648 ≤ m.priority := by
    have := hpr.1
    norm_num at this ⊢
    exact this
  have h2 : m.priority < 2147483648 := by
    have := hpr.2
    norm_num at this ⊢
    exact this
  simp [parseNotificationMessage, encodeMessage, lookupKey, jString?, jI32?,
    jMap?, h1, h2]

/-- C2 (counterexample): a canonical envelope payload
`(pattern, data)` which the processor parses successfully and
which fails terminally (missing `push_token`), yet the dispatcher's
re-parse of the payload as a bare `NotificationMessage` fails (no
top-level `notification_id`), so no `DlqMessage` is published — only the
`requeue = false` reject happens. -/
theorem envelope_payload_not_republished_cex :
    parseEnvelope (Json.obj [("pattern".toList, Json.str ("notification".toList)),
        ("data".toList,
          encodeMessage ⟨[], [], [], [], [], [], [], 0, [], [], []⟩)]) =
      some ⟨"notification".toList, ⟨[], [], [], [], [], [], [], 0, [], [], []⟩⟩ ∧
    process_message ⟨[], [], [], [], [], [], [], 0, [], [], []⟩
        ⟨.ok .notFound, true, true, true, true, .error (), .ok ()⟩ =
      (.res (.error .missingToken), [.markProcessing]) ∧
    (dispatchOnError
        (Json.obj [("pattern".toList, Json.str ("notification".toList)),
          ("data".toList,
            encodeMessage ⟨[], [], [], [], [], [], [], 0, [], [], []⟩)])
        [] []).1 = none := by
  exact ⟨rfl, rfl, rfl⟩

/-- C2 (amended): on a processing error the dispatcher re-parses the raw
payload as a bare `NotificationMessage` — not as the `Envelope` the
processor used.  When that parse succeeds it publishes
`DlqMessage { original, failure_reason = error display, failed_at = now }`
and rejects with `requeue = false`; but for every payload in the
canonical envelope shape (which is exactly what the processor can
process) the bare parse fails, so nothing is published and the delivery
is only rejected with `requeue = false`. -/
theorem dlq_publish_requires_bare_message_shape (p : Str) (m : NotifMessage)
    (reason now : Str)
    (hpr : -(2 ^ 31) ≤ m.priority ∧ m.priority < 2 ^ 31) :
    (parseEnvelope (Json.obj [("pattern".toList, Json.str p),
        ("data".toList, encodeMessage m)]) = some ⟨p, m⟩) ∧
    (dispatchOnError (Json.obj [("pattern".toList, Json.str p),
        ("data".toList, encodeMessage m)]) reason now =
      (none, false)) ∧
    (∀ q m', parseNotificationMessage q = some m' →
      dispatchOnError q reason now = (some ⟨m', reason, now⟩, false)) := by
  refine ⟨?_, rfl, ?_⟩
  · simp [parseEnvelope, lookupKey, jString?, jMap?,
      parse_encode_roundtrip m hpr]
  · intro q m' hq
    simp [dispatchOnError, hq]

/-- Witness for the amended C2 at a concrete envelope payload and a
concrete bare payload. -/
theorem dlq_publish_requires_bare_message_shape_witness :
    (parseEnvelope (Json.obj [("pattern".toList, Json.str ("n".toList)),
        ("data".toList,
          encodeMessage ⟨[], [], [], [], [], [], [], 0, [], [], []⟩)]) =
      some ⟨"n".toList, ⟨[], [], [], [], [], [], [], 0, [], [], []⟩⟩) ∧
    (dispatchOnError (Json.obj [("pattern".toList, Json.str ("n".toList)),
        ("data".toList,
          encodeMessage ⟨[], [], [], [], [], [], [], 0, [], [], []⟩)])
        "e".toList "t".toList = (none, false)) ∧
    (∀ q m', parseNotificationMessage q = some m' →
      dispatchOnError q "e".toList "t".toList =
        (some ⟨m', "e".toList, "t".toList⟩, false)) :=
  dlq_publish_requires_bare_message_shape "n".toList
    ⟨[], [], [], [], [], [], [], 0, [], [], []⟩ "e".toList "t".toList
    (by norm_num)

/-! ## C9 — rendering and substitution order

The lemmas below analyse `str::replace` scans over well-formed
templates: occurrences of distinct brace-free placeholders never
overlap, so substituting a variable rewrites exactly its own
placeholders, and substituting a whole (duplicate-free) map is a
per-token lookup, independent of iteration order. -/

/-- A string is a prefix of itself followed by anything. -/
theorem isPref_self_append (p : Str) : ∀ s, isPref p (p ++ s) = true := by
  induction p with
  | nil => intro s; rfl
  | cons c p ih => intro s; simp [isPref, ih]

/-- The placeholder pattern is never empty. -/
theorem placeholderOf_ne_nil (k : Str) : placeholderOf k ≠ [] := by
  simp [placeholderOf]

/-- `flattenToks` distributes over append. -/
theorem flattenToks_append : ∀ a b, flattenToks (a ++ b) =
    flattenToks a ++ flattenToks b := by
  intro a
  induction a with
  | nil => intro b; rfl
  | cons t a ih => intro b; simp [flattenToks, ih]

/-- Flattening literal tokens gives back the string. -/
theorem flattenToks_map_lit : ∀ r : Str, flattenToks (r.map Tok.lit) = r := by
  intro r
  induction r with
  | nil => rfl
  | cons c r ih => simp [flattenToks, tokStr, ih]

/-- Matching two brace-free keys up to their closing brace forces the
keys to be equal. -/
theorem key_eq_of_pref (t u : Str) :
    ∀ k k', BraceFree k → BraceFree k' →
      isPref (k ++ rbr :: t) (k' ++ rbr :: u) = true → k = k' := by
  intro k
  induction k with
  | nil =>
    intro k' _ hk' h
    cases k' with
    | nil => rfl
    | cons c k'' =>
      simp only [List.nil_append, List.cons_append, isPref, Bool.and_eq_true,
        decide_eq_true_eq] at h
      exact absurd h.1.symm (hk' c (by simp)).2
  | cons c k ih =>
    intro k' hk hk' h
    cases k' with
    | nil =>
      simp only [List.cons_append, List.nil_append, isPref, Bool.and_eq_true,
        decide_eq_true_eq] at h
      exact absurd h.1 (hk c (by simp)).2
    | cons c' k'' =>
      simp only [List.cons_append, isPref, Bool.and_eq_true,
        decide_eq_true_eq] at h
      have hck : BraceFree k := fun x hx => hk x (by simp [hx])
      have hck' : BraceFree k'' := fun x hx => hk' x (by simp [hx])
      rw [h.1, ih k'' hck hck' h.2]

/-- Distinct brace-free placeholders do not match at the same
position. -/
theorem ph_mismatch_no_pref (k k' s : Str) (hk : BraceFree k)
    (hk' : BraceFree k') (hne : k ≠ k') :
    isPref (placeholderOf k) (placeholderOf k' ++ s) = false := by
  apply Bool.eq_false_iff.mpr
  intro h
  rw [show (placeholderOf k' ++ s : Str) =
      lbr :: lbr :: (k' ++ (rbr :: rbr :: s)) from by simp [placeholderOf]] at h
  rw [show (placeholderOf k : Str) =
      lbr :: lbr :: (k ++ (rbr :: [rbr])) from by simp [placeholderOf]] at h
  simp only [isPref, Bool.and_eq_true, decide_eq_true_eq] at h
  exact hne (key_eq_of_pref _ _ k k' hk hk' h.2.2)

/-- A placeholder pattern (which starts with `\x7b`) cannot match at any
offset inside a chunk free of `\x7b`. -/
theorem noLbr_scan (pp w : Str) (hw : ∀ c ∈ w, c ≠ lbr) :
    ∀ (s : Str) (i : Nat), i < w.length →
      isPref (lbr :: pp) (w.drop i ++ s) = false := by
  intro s i hi
  apply Bool.eq_false_iff.mpr
  intro h
  rw [List.drop_eq_getElem_cons hi] at h
  simp only [List.cons_append, isPref, Bool.and_eq_true,
    decide_eq_true_eq] at h
  exact hw w[i] (List.getElem_mem hi) h.1.symm

/-- `str::replace` walks through a chunk that matches nowhere. -/
theorem scan_chunk (p r : Str) :
    ∀ (chunk s : Str),
      (∀ i, i < chunk.length → isPref p (chunk.drop i ++ s) = false) →
      replaceAll p r (chunk ++ s) = chunk ++ replaceAll p r s := by
  intro chunk
  induction chunk with
  | nil => intro s _; simp
  | cons c cs ih =>
    intro s h
    have h0 : isPref p (c :: (cs ++ s)) = false := by
      simpa using h 0 (by simp)
    rw [List.cons_append, replaceAll]
    simp only [h0, Bool.false_and, Bool.false_eq_true, if_false]
    rw [ih s fun i hi => by simpa using h (i + 1) (by simpa using hi)]
    rfl

/-- No offset inside the placeholder of a different key matches the
pattern of key `k`. -/
theorem ph_chunk_no_match (k k' s : Str) (hk : BraceFree k)
    (hk' : BraceFree k') (hne : k ≠ k') :
    ∀ i, i < (placeholderOf k').length →
      isPref (placeholderOf k) ((placeholderOf k').drop i ++ s) = false := by
  intro i hi
  match i with
  | 0 => simpa using ph_mismatch_no_pref k k' s hk hk' hne
  | 1 =>
    apply Bool.eq_false_iff.mpr
    intro h
    simp only [placeholderOf, List.drop_succ_cons, List.drop_zero,
      List.cons_append, isPref, Bool.and_eq_true, decide_eq_true_eq] at h
    cases hcase : k' with
    | nil =>
      rw [hcase] at h
      simp only [List.nil_append, List.cons_append, isPref, Bool.and_eq_true,
        decide_eq_true_eq] at h
      have : lbr ≠ rbr := by decide
      exact this h.2.1
    | cons c k'' =>
      rw [hcase] at h
      simp only [List.cons_append, isPref, Bool.and_eq_true,
        decide_eq_true_eq] at h
      exact (hk' c (by simp [hcase])).1 h.2.1.symm
  | i + 2 =>
    have hw : ∀ c ∈ (k' ++ [rbr, rbr]), c ≠ lbr := by
      intro c hc
      rcases List.mem_append.mp hc with hc | hc
      · exact (hk' c hc).1
      · have hcr : c = rbr := by simpa using hc
        subst hcr
        decide
    have hlen : i < (k' ++ [rbr, rbr]).length := by
      simp only [placeholderOf, List.length_cons, List.length_append] at hi ⊢
      omega
    have hnm := noLbr_scan (lbr :: (k ++ [rbr, rbr])) (k' ++ [rbr, rbr]) hw s i hlen
    simpa [placeholderOf] using hnm

/-- `str::replace` consumes an occurrence sitting at the front. -/
theorem replaceAll_self (p r : Str) (hp : p ≠ []) (s : Str) :
    replaceAll p r (p ++ s) = r ++ replaceAll p r s := by
  cases hp' : p with
  | nil => exact absurd hp' hp
  | cons c p' =>
    have hpref : isPref (c :: p') (c :: (p' ++ s)) = true := by
      have := isPref_self_append (c :: p') s
      rwa [List.cons_append] at this
    rw [List.cons_append, replaceAll]
    simp only [hpref, Bool.true_and]
    rw [if_pos (by simp)]
    congr 1
    simp only [List.length_cons, List.drop_succ_cons]
    exact congrArg (replaceAll (c :: p') r) (List.drop_left p' s)

/-- One `str::replace` of a brace-free placeholder over a well-formed
template rewrites exactly the matching placeholder tokens. -/
theorem replaceAll_flatten (k r : Str) (hk : BraceFree k) :
    ∀ ts, WFToks ts →
      replaceAll (placeholderOf k) r (flattenToks ts) =
        flattenToks (applyVar k r ts) := by
  intro ts
  induction ts with
  | nil =>
    intro _
    simp [flattenToks, applyVar, replaceAll]
  | cons t rest ih =>
    intro hwf
    have hwfr : WFToks rest := fun x hx => hwf x (List.mem_cons_of_mem _ hx)
    have hwt : tokWF t := hwf t (List.mem_cons_self _ _)
    cases t with
    | lit c =>
      have hc : c ≠ lbr := (show c ≠ lbr ∧ c ≠ rbr from hwt).1
      have h0 : isPref (placeholderOf k) (c :: flattenToks rest) = false := by
        apply Bool.eq_false_iff.mpr
        intro h
        simp only [placeholderOf, isPref, Bool.and_eq_true,
          decide_eq_true_eq] at h
        exact hc h.1.symm
      rw [flattenToks, applyVar]
      rw [show tokStr (Tok.lit c) = [c] from rfl,
        show substTok k r (Tok.lit c) = [Tok.lit c] from rfl]
      rw [List.singleton_append, replaceAll]
      simp only [h0, Bool.false_and, Bool.false_eq_true, if_false]
      rw [ih hwfr]
      rfl
    | ph k' =>
      have hbk' : BraceFree k' := show BraceFree k' from hwt
      rw [flattenToks, applyVar]
      rw [show tokStr (Tok.ph k') = placeholderOf k' from rfl]
      by_cases hkk : k' = k
      · subst hkk
        rw [replaceAll_self _ _ (placeholderOf_ne_nil k') _]
        rw [ih hwfr]
        rw [show substTok k' r (Tok.ph k') = r.map Tok.lit from by
          simp [substTok]]
        rw [flattenToks_append, flattenToks_map_lit]
      · rw [scan_chunk _ _ (placeholderOf k') (flattenToks rest)
          (ph_chunk_no_match k k' (flattenToks rest) hk hbk'
            (fun h => hkk h.symm))]
        rw [ih hwfr]
        rw [show substTok k r (Tok.ph k') = [Tok.ph k'] from by
          simp [substTok, hkk]]
        rw [flattenToks_append]
        simp [flattenToks, tokStr]

/-- Substituting a brace-free replacement preserves well-formedness of
the token sequence. -/
theorem WFToks_applyVar (k r : Str) (hbr : BraceFree r) :
    ∀ ts, WFToks ts → WFToks (applyVar k r ts) := by
  intro ts
  induction ts with
  | nil =>
    intro _ t ht
    rw [applyVar] at ht
    cases ht
  | cons t' rest ih =>
    intro hwf t ht
    rw [applyVar] at ht
    have hwt' : tokWF t' := hwf t' (List.mem_cons_self _ _)
    rcases List.mem_append.mp ht with ht | ht
    · cases t' with
      | lit c =>
        simp only [substTok, List.mem_singleton] at ht
        subst ht
        exact hwt'
      | ph k' =>
        by_cases hkk : k' = k
        · simp only [substTok, hkk, if_true, List.mem_map] at ht
          obtain ⟨c, hc, rfl⟩ := ht
          exact hbr c hc
        · simp only [substTok, hkk, if_false, List.mem_singleton] at ht
          subst ht
          exact hwt'
    · exact ih (fun x hx => hwf x (List.mem_cons_of_mem _ hx)) t ht

/-- `applyVar` distributes over append. -/
theorem applyVar_append (k r : Str) :
    ∀ a b, applyVar k r (a ++ b) = applyVar k r a ++ applyVar k r b := by
  intro a
  induction a with
  | nil => intro b; rfl
  | cons t a ih =>
    intro b
    simp [applyVar, ih, List.append_assoc]

/-- `applyVars` of the empty token sequence. -/
theorem applyVars_nil : ∀ vs, applyVars vs [] = [] := by
  intro vs
  induction vs with
  | nil => rfl
  | cons kv vs ih =>
    obtain ⟨k, v⟩ := kv
    rw [applyVars, show applyVar k ((stringifyValue v).getD []) [] = [] from rfl,
      ih]

/-- `applyVars` distributes over append. -/
theorem applyVars_append :
    ∀ vs (a b : List Tok),
      applyVars vs (a ++ b) = applyVars vs a ++ applyVars vs b := by
  intro vs
  induction vs with
  | nil => intro a b; rfl
  | cons kv vs ih =>
    intro a b
    obtain ⟨k, v⟩ := kv
    rw [applyVars, applyVar_append, ih, applyVars, applyVars]

/-- Literal tokens are fixed by the whole substitution loop. -/
theorem applyVars_lit : ∀ vs (c : Char), applyVars vs [Tok.lit c] = [Tok.lit c] := by
  intro vs
  induction vs with
  | nil => intro c; rfl
  | cons kv vs ih =>
    intro c
    obtain ⟨k, v⟩ := kv
    rw [applyVars,
      show applyVar k ((stringifyValue v).getD []) [Tok.lit c] = [Tok.lit c]
        from rfl, ih]

/-- Strings of literal tokens are fixed by the substitution loop. -/
theorem applyVars_map_lit : ∀ vs (r : Str),
    applyVars vs (r.map Tok.lit) = r.map Tok.lit := by
  intro vs r
  induction r with
  | nil => simp [applyVars_nil]
  | cons c r ih =>
    rw [show (c :: r).map Tok.lit = [Tok.lit c] ++ r.map Tok.lit from rfl,
      applyVars_append, applyVars_lit, ih]

/-- A placeholder token is resolved by first-match lookup, whatever the
iteration order did before reaching it. -/
theorem applyVars_ph : ∀ vs (k : Str),
    applyVars vs [Tok.ph k] = tokFinal vs (Tok.ph k) := by
  intro vs
  induction vs with
  | nil => intro k; rfl
  | cons kv vs ih =>
    intro k
    obtain ⟨k', v⟩ := kv
    rw [applyVars]
    by_cases hkk : k = k'
    · rw [show applyVar k' ((stringifyValue v).getD []) [Tok.ph k] =
          ((stringifyValue v).getD []).map Tok.lit from by
        simp [applyVar, substTok, hkk]]
      rw [applyVars_map_lit]
      simp [tokFinal, lookupKey, hkk.symm]
    · rw [show applyVar k' ((stringifyValue v).getD []) [Tok.ph k] =
          [Tok.ph k] from by simp [applyVar, substTok, hkk]]
      rw [ih k]
      simp [tokFinal, lookupKey, Ne.symm hkk]

/-- The substitution loop acts per token. -/
theorem applyVars_eq_applyFinal (vs : List (Str × Json)) :
    ∀ ts, applyVars vs ts = applyFinal vs ts := by
  intro ts
  induction ts with
  | nil => rw [applyVars_nil]; rfl
  | cons t ts ih =>
    rw [show t :: ts = [t] ++ ts from rfl, applyVars_append, ih]
    rw [show applyFinal vs ([t] ++ ts) = tokFinal vs t ++ applyFinal vs ts
      from rfl]
    congr 1
    cases t with
    | lit c => exact applyVars_lit vs c
    | ph k => exact applyVars_ph vs k

/-- The whole substitution loop over a well-formed template, when every
key and every stringified value is brace-free, succeeds and equals the
token-level substitution. -/
theorem substLoop_flatten :
    ∀ vs (ts : List Tok), WFToks ts →
      (∀ q ∈ vs, BraceFree q.1 ∧
        ∃ r, stringifyValue q.2 = some r ∧ BraceFree r) →
      substLoop vs (flattenToks ts) = .ok (flattenToks (applyVars vs ts)) := by
  intro vs
  induction vs with
  | nil => intro ts _ _; rfl
  | cons kv vs ih =>
    intro ts hwf hv
    obtain ⟨k, v⟩ := kv
    obtain ⟨hbk, r, hsv, hbr⟩ := hv (k, v) (List.mem_cons_self _ _)
    simp only [substLoop, hsv]
    rw [replaceAll_flatten k r hbk ts hwf]
    rw [ih (applyVar k r ts) (WFToks_applyVar k r hbr ts hwf)
      (fun q hq => hv q (List.mem_cons_of_mem _ hq))]
    rw [applyVars, hsv]
    rfl

/-- First-match lookup is invariant under permutation when the keys are
duplicate-free (exactly the situation of a `HashMap`'s two iteration
orders). -/
theorem lookupKey_perm {vs₁ vs₂ : List (Str × Json)} (h : vs₁.Perm vs₂) :
    (vs₁.map Prod.fst).Nodup → ∀ k, lookupKey k vs₁ = lookupKey k vs₂ := by
  induction h with
  | nil => intro _ k; rfl
  | cons x h ih =>
    intro hnd k
    obtain ⟨kx, vx⟩ := x
    simp only [List.map_cons, List.nodup_cons] at hnd
    rw [lookupKey, lookupKey]
    by_cases hk : kx = k
    · simp [hk]
    · simp only [hk, if_false]
      exact ih hnd.2 k
  | swap x y l =>
    intro hnd k
    obtain ⟨kx, vx⟩ := x
    obtain ⟨ky, vy⟩ := y
    simp only [List.map_cons, List.nodup_cons, List.mem_cons] at hnd
    rw [lookupKey, lookupKey, lookupKey, lookupKey]
    by_cases h1 : ky = k <;> by_cases h2 : kx = k
    · exact absurd (Or.inl (h1.trans h2.symm)) hnd.1
    · simp [h1, h2]
    · simp [h1, h2]
    · simp [h1, h2]
  | trans h12 h23 ih12 ih23 =>
    intro hnd k
    rw [ih12 hnd k, ih23 (((h12.map Prod.fst).nodup_iff).mp hnd) k]

/-- `replace_variables` over a well-formed template is invariant under
permutations of a duplicate-free variable list whose values stringify to
brace-free strings. -/
theorem replace_variables_perm (ts : List Tok) (hwf : WFToks ts)
    (vs₁ vs₂ : List (Str × Json)) (hperm : vs₁.Perm vs₂)
    (hnd : (vs₁.map Prod.fst).Nodup)
    (hv : ∀ q ∈ vs₁, BraceFree q.1 ∧
      ∃ r, stringifyValue q.2 = some r ∧ BraceFree r) :
    replace_variables (flattenToks ts) vs₁ =
      replace_variables (flattenToks ts) vs₂ := by
  have hv₂ : ∀ q ∈ vs₂, BraceFree q.1 ∧
      ∃ r, stringifyValue q.2 = some r ∧ BraceFree r :=
    fun q hq => hv q (hperm.mem_iff.mpr hq)
  have h1 := substLoop_flatten vs₁ ts hwf hv
  have h2 := substLoop_flatten vs₂ ts hwf hv₂
  have heq : applyVars vs₁ ts = applyVars vs₂ ts := by
    rw [applyVars_eq_applyFinal, applyVars_eq_applyFinal]
    have hl := lookupKey_perm hperm hnd
    induction ts with
    | nil => rfl
    | cons t ts ihts =>
      rw [show applyFinal vs₁ (t :: ts) = tokFinal vs₁ t ++ applyFinal vs₁ ts
          from rfl,
        show applyFinal vs₂ (t :: ts) = tokFinal vs₂ t ++ applyFinal vs₂ ts
          from rfl]
      rw [ihts (fun x hx => hwf x (List.mem_cons_of_mem _ hx))
        (substLoop_flatten vs₁ ts
          (fun x hx => hwf x (List.mem_cons_of_mem _ hx)) hv)
        (substLoop_flatten vs₂ ts
          (fun x hx => hwf x (List.mem_cons_of_mem _ hx)) hv₂)]
      congr 1
      cases t with
      | lit c => rfl
      | ph k => simp [tokFinal, hl k]
  unfold replace_variables
  rw [h1, h2, heq]

/-- C9 (counterexample): with the template `\x7b\x7ba\x7d\x7d` and the
two iteration orders of the map `a ↦ "\x7b\x7bb\x7d\x7d", b ↦ "X"`
(a permutation of the same `HashMap` contents), rendering yields `Ok`
in one order and a missing-variable error in the other — the result is
not independent of the map's iteration order. -/
theorem render_depends_on_iteration_order_cex :
    List.Perm
      [(['a'], Json.str (placeholderOf ['b'])), (['b'], Json.str ['X'])]
      [(['b'], Json.str ['X']), (['a'], Json.str (placeholderOf ['b']))] ∧
    render_template ⟨[], [], [], [], 0, ⟨placeholderOf ['a'], []⟩, []⟩
        [(['a'], Json.str (placeholderOf ['b'])), (['b'], Json.str ['X'])] ≠
      render_template ⟨[], [], [], [], 0, ⟨placeholderOf ['a'], []⟩, []⟩
        [(['b'], Json.str ['X']), (['a'], Json.str (placeholderOf ['b']))] := by
  constructor
  · exact List.Perm.swap _ _ _
  · have h1 : render_template ⟨[], [], [], [], 0, ⟨placeholderOf ['a'], []⟩, []⟩
        [(['a'], Json.str (placeholderOf ['b'])), (['b'], Json.str ['X'])] =
        .ok ⟨['X'], []⟩ := by
      simp [render_template, replace_variables, substLoop, stringifyValue,
        replaceAll, placeholderOf, isPref, lbr, rbr, containsSub, findSub]
    have h2 : render_template ⟨[], [], [], [], 0, ⟨placeholderOf ['a'], []⟩, []⟩
        [(['b'], Json.str ['X']), (['a'], Json.str (placeholderOf ['b']))] =
        .err (.missingVar (placeholderOf ['b'])) := by
      simp [render_template, replace_variables, substLoop, stringifyValue,
        replaceAll, placeholderOf, isPref, lbr, rbr, containsSub, findSub]
    rw [h1, h2]
    simp

/-- C9 (amended): `render_template` is a pure function of the template
content and the ordered variable list, but not of the map alone — with a
value containing placeholder syntax the iteration order can change the
result (counterexample above).  Order-independence does hold whenever
the template's title and body are well-formed placeholder/literal
sequences, the keys are duplicate-free and brace-free, and every value
stringifies to a brace-free string: then any two iteration orders of the
same map render identically. -/
theorem render_order_independent (tmpl : Template) (tsT tsB : List Tok)
    (hT : tmpl.content.title = flattenToks tsT)
    (hB : tmpl.content.body = flattenToks tsB)
    (hwT : WFToks tsT) (hwB : WFToks tsB)
    (vs₁ vs₂ : List (Str × Json)) (hperm : vs₁.Perm vs₂)
    (hnd : (vs₁.map Prod.fst).Nodup)
    (hv : ∀ q ∈ vs₁, BraceFree q.1 ∧
      ∃ r, stringifyValue q.2 = some r ∧ BraceFree r) :
    render_template tmpl vs₁ = render_template tmpl vs₂ := by
  unfold render_template
  rw [hT, hB, replace_variables_perm tsT hwT vs₁ vs₂ hperm hnd hv,
    replace_variables_perm tsB hwB vs₁ vs₂ hperm hnd hv]

/-- Witness for the amended C9: brace-free values, two orders, equal
renderings. -/
theorem render_order_independent_witness :
    render_template ⟨[], [], [], [], 0, ⟨placeholderOf ['a'], []⟩, []⟩
        [(['a'], Json.str ['x']), (['b'], Json.str ['y'])] =
      render_template ⟨[], [], [], [], 0, ⟨placeholderOf ['a'], []⟩, []⟩
        [(['b'], Json.str ['y']), (['a'], Json.str ['x'])] :=
  render_order_independent _ [Tok.ph ['a']] [] rfl rfl (by decide) (by decide)
    _ _ (List.Perm.swap _ _ _) (by decide)
    (by
      intro q hq
      rcases List.mem_cons.mp hq with rfl | hq
      · exact ⟨by decide, ['x'], rfl, by decide⟩
      · rcases List.mem_cons.mp hq with rfl | hq
        · exact ⟨by decide, ['y'], rfl, by decide⟩
        · cases hq)

end PushService
